import Mathlib

/-!
A verification development for the RigL-style mask-update engine
(dynamic sparse training) and its pruning configuration lookup.

The mask-update engine itself is modelled from the specification
(schedule, top-k selection with deterministic index tie-break, the
drop/grow passes with the sentinel construction, reinitialization of
grown positions, and the permute-ones initial mask).  The pruning
configuration (`PruningConfig.get_pruner` and
`LowMagnitudePruningConfig._process_layer`) is embedded directly from
`pruning_config.py`.
-/

namespace RiglSpec

/-- Modelled from the spec: round-to-nearest with ties to even, the
rounding used for `drop_count = round(drop_fraction * active_count)`.
The spec leaves the tie rule open; ties-to-even reproduces the worked
example (round(0.5 * 5) = 2, equal to round(0.4 * 5)). -/
def roundNearestEven (q : ℚ) : ℤ :=
  if q - ⌊q⌋ < 1/2 then ⌊q⌋
  else if 1/2 < q - ⌊q⌋ then ⌊q⌋ + 1
  else if ⌊q⌋ % 2 = 0 then ⌊q⌋ else ⌊q⌋ + 1

/-- Modelled from the spec: strict selection-precedence order for the
top-k selector.  `prec s i j` means position `i` is selected before
position `j`: higher score first, ties broken by original index order. -/
def prec {n : ℕ} (s : Fin n → ℤ) (i j : Fin n) : Prop :=
  s j < s i ∨ (s i = s j ∧ i < j)

instance {n : ℕ} (s : Fin n → ℤ) (i j : Fin n) : Decidable (prec s i j) := by
  unfold prec; infer_instance

/-- Selection rank of `i` among the candidate positions `cand`:
the number of candidates that are selected before `i`. -/
def rankIn {n : ℕ} (s : Fin n → ℤ) (cand : Fin n → Bool) (i : Fin n) : ℕ :=
  (Finset.univ.filter (fun j => cand j = true ∧ prec s j i)).card

/-- Modelled from the spec: top-k selection restricted to the candidate
set `cand`.  Returns a mask selecting the `k` highest-scoring candidate
positions (all candidates when `k` exceeds the candidate count), with
deterministic index-order tie-break. -/
def topKIn {n : ℕ} (s : Fin n → ℤ) (cand : Fin n → Bool) (k : ℕ) : Fin n → Bool :=
  fun i => cand i && decide (rankIn s cand i < k)

/-- Modelled from the spec: the unrestricted top-k selector
(`_generic_top_k` in the tests): the mask of the `k` largest scores over
all positions, ties broken by index order. -/
def genericTopK {n : ℕ} (s : Fin n → ℤ) (k : ℕ) : Fin n → Bool :=
  topKIn s (fun _ => true) k

/-- Number of active (set) positions of a mask, `count_nonzero`. -/
def countOnes {n : ℕ} (m : Fin n → Bool) : ℕ :=
  (Finset.univ.filter (fun i => m i = true)).card

/-- Candidate set of a boolean predicate as a finite set. -/
def candSet {n : ℕ} (cand : Fin n → Bool) : Finset (Fin n) :=
  Finset.univ.filter (fun i => cand i = true)


/-- Modelled from the spec: the constant-fraction update schedule
(`ConstantSchedule` in the missing `schedule.py`): immutable begin step,
end step, update frequency, and a constant drop fraction. -/
structure ConstantSchedule where
  fraction : ℚ
  beginStep : ℕ
  endStep : ℕ
  freq : ℕ
deriving DecidableEq

/-- Modelled from the spec: `should_update(step)` is false for
`step < begin_step` or `step > end_step`, and otherwise true exactly
when `(step - begin_step) mod frequency = 0`. -/
def should_update (sch : ConstantSchedule) (step : ℕ) : Bool :=
  decide (sch.beginStep ≤ step) && decide (step ≤ sch.endStep) &&
    decide ((step - sch.beginStep) % sch.freq = 0)

/-- Modelled from the spec: the drop fraction of a constant schedule is
a pure function of the step, constant for the constant variant. -/
def dropFraction (sch : ConstantSchedule) (_step : ℕ) : ℚ :=
  sch.fraction

/-- Modelled from the spec: `drop_count = round(drop_fraction * A)`
where `A` is the current active count, computed on the numerator and
denominator of the fraction; `dropCount_eq_round` below proves it equal
to `round(drop_fraction * A)` with round-half-to-even. -/
def dropCount (f : ℚ) (a : ℕ) : ℕ :=
  (if 2 * (f.num * a % (f.den : ℤ)) < (f.den : ℤ) then f.num * a / (f.den : ℤ)
   else if (f.den : ℤ) < 2 * (f.num * a % (f.den : ℤ)) then f.num * a / (f.den : ℤ) + 1
   else if (f.num * a / (f.den : ℤ)) % 2 = 0 then f.num * a / (f.den : ℤ)
   else f.num * a / (f.den : ℤ) + 1).toNat

/-- Minimum of the absolute grow scores (`tf.reduce_min` over `|grad|`);
`0` for an empty tensor, where it is never used. -/
def minAbsScore {n : ℕ} (g : Fin n → ℤ) : ℤ :=
  if h : 0 < n then Finset.univ.inf' ⟨⟨0, h⟩, Finset.mem_univ _⟩ (fun i => |g i|) else 0

/-- Modelled from the spec: drop pass.  Score currently active elements
by `|weight|` and keep the `keep` highest-scoring active elements via
the top-k selector restricted to currently-active positions. -/
def dropMask {n : ℕ} (w : Fin n → ℤ) (mask : Fin n → Bool) (keep : ℕ) : Fin n → Bool :=
  topKIn (fun i => |w i|) mask keep

/-- Modelled from the spec: grow scores after the sentinel lift.
Positions still active after the drop pass have their score set to a
sentinel strictly below the global minimum (`min(|grad|) - 1`), so that
the grow top-k call can never select them. -/
def liftedGrowScores {n : ℕ} (g : Fin n → ℤ) (dropped : Fin n → Bool) : Fin n → ℤ :=
  fun i => if dropped i = true then minAbsScore g - 1 else |g i|

/-- Modelled from the spec: grow pass.  Select the top `k` positions of
the sentinel-lifted `|gradient|` scores via the generic top-k call. -/
def growMask {n : ℕ} (g : Fin n → ℤ) (dropped : Fin n → Bool) (k : ℕ) : Fin n → Bool :=
  genericTopK (liftedGrowScores g dropped) k

/-- Modelled from the spec: one drop/grow update of the mask.  With
`A = count_nonzero(mask)` and `dc = round(f * A)`: keep the `A - dc`
highest-|weight| active positions, grow the `dc` highest-|gradient|
inactive positions, and merge (union) the two selections. -/
def riglMaskUpdate {n : ℕ} (w g : Fin n → ℤ) (mask : Fin n → Bool) (f : ℚ) : Fin n → Bool :=
  let a := countOnes mask
  let dc := dropCount f a
  let dropped := dropMask w mask (a - dc)
  let grown := growMask g dropped dc
  fun i => dropped i || grown i

/-- Modelled from the spec: the growth-initialization policy for newly
grown connections (`zeros`, `random_normal` or `random_uniform`). -/
inductive GrowInit
  | zeros
  | randomNormal
  | randomUniform
deriving DecidableEq

/-- Modelled from the spec: the value written to a newly grown weight
position; `draw` is the seeded random draw used by the randomized
policies. -/
def growValue {n : ℕ} (gi : GrowInit) (draw : Fin n → ℤ) (i : Fin n) : ℤ :=
  match gi with
  | .zeros => 0
  | .randomNormal => draw i
  | .randomUniform => draw i

/-- Modelled from the spec: reinitialization of grown positions.  Every
weight element whose mask flipped from inactive to active is overwritten
with the policy's grow value; all other weights are untouched. -/
def reinitWeights {n : ℕ} (gi : GrowInit) (draw : Fin n → ℤ) (w : Fin n → ℤ)
    (oldMask newMask : Fin n → Bool) : Fin n → ℤ :=
  fun i => if oldMask i = false ∧ newMask i = true then growValue gi draw i else w i

/-- Modelled from the spec: the per-step protocol of the mask-update
engine (the `preprocess_weights`/`postprocess_weights` pair).  On a
non-update step the mask, the weights and the gradient are returned
unchanged; on an update step the new mask is committed and the newly
active weight positions are reinitialized.  Returns
`(mask', weight', gradient')`. -/
def engineStep {n : ℕ} (sch : ConstantSchedule) (gi : GrowInit) (draw : Fin n → ℤ)
    (step : ℕ) (mask : Fin n → Bool) (w g : Fin n → ℤ) :
    (Fin n → Bool) × (Fin n → ℤ) × (Fin n → ℤ) :=
  if should_update sch step = true then
    let newMask := riglMaskUpdate w g mask (dropFraction sch step)
    (newMask, reinitWeights gi draw w mask newMask, g)
  else
    (mask, w, g)

/-- Modelled from the spec: step-by-step eager execution.  The engine is
invoked once per step on consecutive step numbers; the trajectory is the
list of masks after each step. -/
def eagerTrajectory {n : ℕ} (sch : ConstantSchedule) (gi : GrowInit) (draw : Fin n → ℤ) :
    ℕ → (Fin n → Bool) → List ((Fin n → ℤ) × (Fin n → ℤ)) → List (Fin n → Bool)
  | _, _, [] => []
  | step, mask, (w, g) :: rest =>
    let m := (engineStep sch gi draw step mask w g).1
    m :: eagerTrajectory sch gi draw (step + 1) m rest

/-- Modelled from the spec: compiled/batched execution.  The whole input
sequence is replayed as a single unit by one left fold that threads the
step counter and the mask and accumulates the trajectory. -/
def batchedTrajectory {n : ℕ} (sch : ConstantSchedule) (gi : GrowInit) (draw : Fin n → ℤ)
    (step : ℕ) (mask : Fin n → Bool) (inputs : List ((Fin n → ℤ) × (Fin n → ℤ))) :
    List (Fin n → Bool) :=
  (inputs.foldl
    (fun acc wg =>
      let m := (engineStep sch gi draw acc.1 acc.2.1 wg.1 wg.2).1
      (acc.1 + 1, m, acc.2.2 ++ [m]))
    (step, mask, [])).2.2

/-- Modelled from the spec: the initial active count chosen by the
sparse distribution, `round((1 - target_sparsity) * size)`. -/
def initialActiveCount (size : ℕ) (sparsity : ℚ) : ℕ :=
  (roundNearestEven ((1 - sparsity) * size)).toNat

/-- Modelled from the spec: the permute-ones sparse distribution.  A
seeded pseudo-random permutation `σ` of the indices is fixed and the
first `active` permuted indices are made active. -/
def permuteOnesMask {n : ℕ} (σ : Equiv.Perm (Fin n)) (active : ℕ) : Fin n → Bool :=
  fun i => decide ((σ i : ℕ) < active)

/-- Modelled from the spec: the mask allocated by `create_slots` for a
weight tensor of size `n`, using the permute-ones distribution with the
configuration-seeded permutation `σ`. -/
def createSlotsMask {n : ℕ} (σ : Equiv.Perm (Fin n)) (sparsity : ℚ) : Fin n → Bool :=
  permuteOnesMask σ (initialActiveCount n sparsity)

/-- Modelled from the spec: the raw `grow_init` constructor argument,
which may be a string, `None`, or a non-string literal such as `0`. -/
inductive GrowInitInput
  | str (s : String)
  | noneVal
  | int (z : ℤ)
deriving DecidableEq

/-- Modelled from the spec: eager validation of the growth-init policy.
Exactly the documented policies are accepted; anything else is a
configuration error. -/
def parseGrowInit : GrowInitInput → Except String GrowInit
  | .str "zeros" => .ok .zeros
  | .str "random_normal" => .ok .randomNormal
  | .str "random_uniform" => .ok .randomUniform
  | _ => .error "unsupported grow_init method"

/-- Modelled from the spec: the immutable pruner configuration held by a
constructed `RiGLPruner`. -/
structure RiGLPruner where
  update_schedule : ConstantSchedule
  sparsity : ℚ
  seed : ℕ
  noise_std : ℚ
  grow_init : GrowInit
deriving DecidableEq

/-- Modelled from the spec: `RiGLPruner` construction.  The growth-init
policy is validated eagerly at construction time: an unrecognized policy
yields a configuration error before any slot is created and before any
update is attempted. -/
def mkRiGLPruner (sch : ConstantSchedule) (sparsity : ℚ) (seed : ℕ) (noise_std : ℚ)
    (grow_init : GrowInitInput) : Except String RiGLPruner :=
  match parseGrowInit grow_init with
  | .error e => .error e
  | .ok gi => .ok ⟨sch, sparsity, seed, noise_std, gi⟩

/-- From `pruning_config.py`: the role of a layer for `_process_layer`.
A layer either implements `PrunableLayer`, is supported by the prune
registry (and made prunable), or is not prunable; the first two carry
the variables returned by `get_prunable_weights`. -/
inductive LayerKind
  | prunableLayer (ws : List ℕ)
  | registrySupported (ws : List ℕ)
  | notPrunable
deriving DecidableEq

/-- From `pruning_config.py` (`LowMagnitudePruningConfig._process_layer`):
the variables a processed layer registers with the shared pruner: its
prunable weights when it is a `PrunableLayer` or registry-supported,
nothing otherwise. -/
def registeredWeights : LayerKind → List ℕ
  | .prunableLayer ws => ws
  | .registrySupported ws => ws
  | .notPrunable => []

/-- The configured model as seen by `_build_pruner_map`: its trainable
weights (variable references modelled as naturals) and the layers the
recursive traversal processes. -/
structure KModel where
  trainableWeights : List ℕ
  layers : List LayerKind
deriving DecidableEq

/-- Python dictionary assignment `d[k] = v` on an association list:
overwrite the entry if the key is present, append it otherwise. -/
def dictSet : List (ℕ × Option ℕ) → ℕ → Option ℕ → List (ℕ × Option ℕ)
  | [], k, v => [(k, v)]
  | p :: rest, k, v => if p.1 = k then (k, v) :: rest else p :: dictSet rest k v

/-- From `pruning_config.py` (`PruningConfig._build_pruner_map`): start
from every trainable weight mapped to `None`, then let every processed
layer register its prunable weights with the shared pruner. -/
def buildPrunerMap (model : KModel) (sharedPruner : ℕ) : List (ℕ × Option ℕ) :=
  let init := model.trainableWeights.foldl (fun mp v => dictSet mp v Option.none) []
  model.layers.foldl
    (fun mp layer => (registeredWeights layer).foldl
      (fun mp v => dictSet mp v (some sharedPruner)) mp)
    init

/-- The mutable state of a `PruningConfig`: the configured model (if
any) and the lazily built variable-to-pruner mapping. -/
structure PruningConfigState where
  model : Option KModel
  mapping : Option (List (ℕ × Option ℕ))

/-- Python truthiness of `self._variable_to_pruner_mapping`: falsy when
it is still `None` or an empty dictionary. -/
def mapIsFalsy : Option (List (ℕ × Option ℕ)) → Bool
  | Option.none => true
  | some m => m.isEmpty

/-- From `pruning_config.py` (`PruningConfig.get_pruner`): build the
pruner map on first use (raising `ValueError` when no model is
configured), raise `ValueError` for a variable with no entry in the
map, and otherwise return the entry, which is `None` for a trainable
variable no prunable layer registered. -/
def getPruner (sharedPruner : ℕ) (st : PruningConfigState) (v : ℕ) :
    Except String (Option ℕ) :=
  let build : Except String (List (ℕ × Option ℕ)) :=
    if mapIsFalsy st.mapping then
      match st.model with
      | Option.none => .error "You may be using a PruningOptimizer without a configured model"
      | some m => .ok (buildPrunerMap m sharedPruner)
    else .ok (st.mapping.getD [])
  match build with
  | .error e => .error e
  | .ok mp =>
    match List.lookup v mp with
    | Option.none => .error "variable did not appear in the configured model trainable weights"
    | some entry => .ok entry

/-- Weight tensor of the worked example: `linspace(1, 100, 10)`. -/
def exampleWeight : Fin 10 → ℤ :=
  ![1, 12, 23, 34, 45, 56, 67, 78, 89, 100]

/-- Mask of the worked example: 5 active positions out of 10. -/
def exampleMask : Fin 10 → Bool :=
  ![true, true, false, true, false, false, true, true, false, false]

/-- Gradient of the worked example. -/
def exampleGrad : Fin 10 → ℤ :=
  ![67, 45, 89, 56, 100, 34, 1, 23, 12, 78]

/-- Hand-computed expected mask after the first update of the worked
example: drop the two lowest-|weight| active positions (0 and 1), grow
the two highest-|gradient| inactive positions (4 and 2). -/
def exampleExpected : Fin 10 → Bool :=
  ![false, false, true, true, true, false, true, true, false, false]

/-- Schedule of the worked example: drop fraction 1/2, begin step 1,
end step 4, frequency 2 (updates at steps 1 and 3). -/
def exampleSchedule : ConstantSchedule :=
  ⟨mkRat 1 2, 1, 4, 2⟩

/-- A concrete nonzero random draw used to exercise the grow
reinitialization policies. -/
def exampleDraw : Fin 10 → ℤ :=
  fun _ => 3

theorem prec_irrefl {n : ℕ} (s : Fin n → ℤ) (i : Fin n) : ¬ prec s i i := by
  intro h
  rcases h with h | ⟨_, h⟩
  · exact lt_irrefl _ h
  · exact lt_irrefl _ h

theorem prec_trans {n : ℕ} (s : Fin n → ℤ) {i j k : Fin n}
    (hij : prec s i j) (hjk : prec s j k) : prec s i k := by
  rcases hij with hij | ⟨hij, hij2⟩ <;> rcases hjk with hjk | ⟨hjk, hjk2⟩
  · exact Or.inl (lt_trans hjk hij)
  · exact Or.inl (hjk ▸ hij)
  · exact Or.inl (hij ▸ hjk)
  · exact Or.inr ⟨hij.trans hjk, lt_trans hij2 hjk2⟩

theorem prec_total {n : ℕ} (s : Fin n → ℤ) {i j : Fin n} (hne : i ≠ j) :
    prec s i j ∨ prec s j i := by
  rcases lt_trichotomy (s i) (s j) with h | h | h
  · exact Or.inr (Or.inl h)
  · rcases lt_or_gt_of_ne (Fin.val_ne_of_ne hne) with hlt | hlt
    · exact Or.inl (Or.inr ⟨h, hlt⟩)
    · exact Or.inr (Or.inr ⟨h.symm, hlt⟩)
  · exact Or.inl (Or.inl h)

theorem rankIn_lt_of_prec {n : ℕ} (s : Fin n → ℤ) (cand : Fin n → Bool)
    {i j : Fin n} (hi : cand i = true) (_hj : cand j = true) (hp : prec s i j) :
    rankIn s cand i < rankIn s cand j := by
  unfold rankIn
  have hsub : insert i (Finset.univ.filter (fun l => cand l = true ∧ prec s l i)) ⊆
      Finset.univ.filter (fun l => cand l = true ∧ prec s l j) := by
    intro l hl
    rcases Finset.mem_insert.mp hl with rfl | hl
    · exact Finset.mem_filter.mpr ⟨Finset.mem_univ _, hi, hp⟩
    · rcases Finset.mem_filter.mp hl with ⟨_, hcl, hpl⟩
      exact Finset.mem_filter.mpr ⟨Finset.mem_univ _, hcl, prec_trans s hpl hp⟩
  have hni : i ∉ Finset.univ.filter (fun l => cand l = true ∧ prec s l i) := by
    intro hmem
    exact prec_irrefl s i (Finset.mem_filter.mp hmem).2.2
  calc (Finset.univ.filter (fun l => cand l = true ∧ prec s l i)).card
      < (insert i (Finset.univ.filter (fun l => cand l = true ∧ prec s l i))).card := by
        rw [Finset.card_insert_of_not_mem hni]; omega
    _ ≤ (Finset.univ.filter (fun l => cand l = true ∧ prec s l j)).card :=
        Finset.card_le_card hsub

theorem rankIn_injOn {n : ℕ} (s : Fin n → ℤ) (cand : Fin n → Bool)
    {i j : Fin n} (hi : cand i = true) (hj : cand j = true)
    (h : rankIn s cand i = rankIn s cand j) : i = j := by
  by_contra hne
  rcases prec_total s hne with hp | hp
  · exact absurd h (Nat.ne_of_lt (rankIn_lt_of_prec s cand hi hj hp))
  · exact absurd h.symm (Nat.ne_of_lt (rankIn_lt_of_prec s cand hj hi hp))

theorem rankIn_lt_card {n : ℕ} (s : Fin n → ℤ) (cand : Fin n → Bool)
    {i : Fin n} (hi : cand i = true) : rankIn s cand i < (candSet cand).card := by
  have hsub : Finset.univ.filter (fun l => cand l = true ∧ prec s l i) ⊆
      (candSet cand).erase i := by
    intro l hl
    rcases Finset.mem_filter.mp hl with ⟨_, hcl, hpl⟩
    refine Finset.mem_erase.mpr ⟨?_, Finset.mem_filter.mpr ⟨Finset.mem_univ _, hcl⟩⟩
    rintro rfl
    exact prec_irrefl s l hpl
  have hmem : i ∈ candSet cand := Finset.mem_filter.mpr ⟨Finset.mem_univ _, hi⟩
  have h1 : rankIn s cand i ≤ ((candSet cand).erase i).card := Finset.card_le_card hsub
  have h2 : ((candSet cand).erase i).card = (candSet cand).card - 1 :=
    Finset.card_erase_of_mem hmem
  have h3 : 0 < (candSet cand).card := Finset.card_pos.mpr ⟨i, hmem⟩
  omega

theorem mem_candSet {n : ℕ} {cand : Fin n → Bool} {i : Fin n} :
    i ∈ candSet cand ↔ cand i = true := by
  unfold candSet
  simp

theorem countOnes_eq_card_candSet {n : ℕ} (m : Fin n → Bool) :
    countOnes m = (candSet m).card := rfl

theorem rankIn_image_eq {n : ℕ} (s : Fin n → ℤ) (cand : Fin n → Bool) :
    (candSet cand).image (rankIn s cand) = Finset.range (candSet cand).card := by
  apply Finset.eq_of_subset_of_card_le
  · intro m hm
    rcases Finset.mem_image.mp hm with ⟨i, hi, rfl⟩
    exact Finset.mem_range.mpr (rankIn_lt_card s cand (mem_candSet.mp hi))
  · rw [Finset.card_range, Finset.card_image_of_injOn]
    intro i hi j hj h
    exact rankIn_injOn s cand (mem_candSet.mp (Finset.mem_coe.mp hi))
      (mem_candSet.mp (Finset.mem_coe.mp hj)) h

theorem countOnes_topKIn {n : ℕ} (s : Fin n → ℤ) (cand : Fin n → Bool) (k : ℕ) :
    countOnes (topKIn s cand k) = min k (candSet cand).card := by
  have hset : Finset.univ.filter (fun i => topKIn s cand k i = true) =
      (candSet cand).filter (fun i => rankIn s cand i < k) := by
    unfold topKIn candSet
    rw [Finset.filter_filter]
    apply Finset.filter_congr
    intro i _
    simp [Bool.and_eq_true]
  have hinj : Set.InjOn (rankIn s cand)
      ((candSet cand).filter (fun i => rankIn s cand i < k)) := by
    intro i hi j hj h
    have hi2 : cand i = true :=
      mem_candSet.mp (Finset.mem_filter.mp (Finset.mem_coe.mp hi)).1
    have hj2 : cand j = true :=
      mem_candSet.mp (Finset.mem_filter.mp (Finset.mem_coe.mp hj)).1
    exact rankIn_injOn s cand hi2 hj2 h
  unfold countOnes
  rw [hset]
  calc ((candSet cand).filter fun i => rankIn s cand i < k).card
      = (((candSet cand).filter fun i => rankIn s cand i < k).image (rankIn s cand)).card :=
        (Finset.card_image_of_injOn hinj).symm
    _ = (((candSet cand).image (rankIn s cand)).filter (· < k)).card := by
        rw [Finset.filter_image]
    _ = ((Finset.range (candSet cand).card).filter (· < k)).card := by
        rw [rankIn_image_eq]
    _ = (Finset.range (min k (candSet cand).card)).card := by
        congr 1
        ext m
        simp only [Finset.mem_filter, Finset.mem_range, Nat.lt_min]
        exact and_comm
    _ = min k (candSet cand).card := Finset.card_range _

theorem topKIn_of_card_le {n : ℕ} (s : Fin n → ℤ) (cand : Fin n → Bool) (k : ℕ)
    (h : (candSet cand).card ≤ k) : ∀ i, topKIn s cand k i = cand i := by
  intro i
  unfold topKIn
  cases hc : cand i
  · simp
  · simp only [hc, Bool.true_and, decide_eq_true_eq]
    exact lt_of_lt_of_le (rankIn_lt_card s cand hc) h

theorem topKIn_zero {n : ℕ} (s : Fin n → ℤ) (cand : Fin n → Bool) :
    ∀ i, topKIn s cand 0 i = false := by
  intro i
  unfold topKIn
  simp

theorem roundNearestEven_nonneg {q : ℚ} (h : 0 ≤ q) : 0 ≤ roundNearestEven q := by
  have h0 : (0:ℤ) ≤ ⌊q⌋ := Int.floor_nonneg.mpr h
  unfold roundNearestEven
  split_ifs <;> omega

theorem roundNearestEven_le {q : ℚ} {c : ℤ} (h : q ≤ c) : roundNearestEven q ≤ c := by
  have hfl : ⌊q⌋ ≤ c := by
    have := Int.floor_le_floor h
    rwa [Int.floor_intCast] at this
  have key : (1:ℚ)/2 ≤ q - ⌊q⌋ → ⌊q⌋ + 1 ≤ c := by
    intro hge
    rcases eq_or_lt_of_le hfl with heq | hlt
    · exfalso
      have hq : q ≤ (⌊q⌋:ℚ) := by
        rw [heq]
        exact h
      have hq2 : (⌊q⌋:ℚ) ≤ q := Int.floor_le q
      linarith
    · omega
  unfold roundNearestEven
  split_ifs with h1 h2 h3
  · exact hfl
  · exact key (le_of_lt h2)
  · exact hfl
  · exact key (le_of_not_lt h1)

theorem dropCount_eq_round (f : ℚ) (a : ℕ) :
    dropCount f a = (roundNearestEven (f * a)).toNat := by
  have hD : (0:ℤ) < (f.den : ℤ) := by
    exact_mod_cast f.den_pos
  have hq : f * (a:ℚ) = ((f.num * a : ℤ) : ℚ) / ((f.den : ℤ) : ℚ) := by
    conv_lhs => rw [← Rat.num_div_den f]
    push_cast
    ring
  have hfl : ⌊f * (a:ℚ)⌋ = f.num * a / (f.den : ℤ) := by
    rw [hq]
    rw [show (((f.den : ℤ)) : ℚ) = ((f.den : ℕ) : ℚ) by push_cast; ring]
    exact Rat.floor_intCast_div_natCast (f.num * a) f.den
  have hD2 : (0:ℚ) < ((f.den : ℤ) : ℚ) := by exact_mod_cast hD
  have hfrac : f * (a:ℚ) - ((f.num * a / (f.den : ℤ) : ℤ) : ℚ) =
      ((f.num * a % (f.den : ℤ) : ℤ) : ℚ) / ((f.den : ℤ) : ℚ) := by
    rw [hq, Int.emod_def]
    push_cast
    field_simp
  have hcmp1 : (f * (a:ℚ) - ((f.num * a / (f.den : ℤ) : ℤ) : ℚ) < 1/2) ↔
      (2 * (f.num * a % (f.den : ℤ)) < (f.den : ℤ)) := by
    rw [hfrac, div_lt_div_iff₀ hD2 two_pos]
    constructor
    · intro h
      have h2 : ((2 * (f.num * a % (f.den : ℤ)) : ℤ) : ℚ) < (((f.den : ℤ)) : ℚ) := by
        push_cast at h ⊢
        linarith
      exact_mod_cast h2
    · intro h
      have h2 : ((2 * (f.num * a % (f.den : ℤ)) : ℤ) : ℚ) < (((f.den : ℤ)) : ℚ) := by
        exact_mod_cast h
      push_cast at h2 ⊢
      linarith
  have hcmp2 : (1/2 < f * (a:ℚ) - ((f.num * a / (f.den : ℤ) : ℤ) : ℚ)) ↔
      ((f.den : ℤ) < 2 * (f.num * a % (f.den : ℤ))) := by
    rw [hfrac, div_lt_div_iff₀ two_pos hD2]
    constructor
    · intro h
      have h2 : (((f.den : ℤ)) : ℚ) < ((2 * (f.num * a % (f.den : ℤ)) : ℤ) : ℚ) := by
        push_cast at h ⊢
        linarith
      exact_mod_cast h2
    · intro h
      have h2 : (((f.den : ℤ)) : ℚ) < ((2 * (f.num * a % (f.den : ℤ)) : ℤ) : ℚ) := by
        exact_mod_cast h
      push_cast at h2 ⊢
      linarith
  unfold dropCount roundNearestEven
  rw [hfl]
  simp only [hcmp1, hcmp2]

theorem dropCount_le {f : ℚ} {a : ℕ} (_h0 : 0 ≤ f) (h1 : f ≤ 1) : dropCount f a ≤ a := by
  rw [dropCount_eq_round]
  have hle : f * a ≤ ((a:ℤ) : ℚ) := by
    push_cast
    calc f * a ≤ 1 * a := by
          apply mul_le_mul_of_nonneg_right h1
          positivity
      _ = a := one_mul _
  have := roundNearestEven_le hle
  omega

theorem dropCount_zero (a : ℕ) : dropCount 0 a = 0 := by
  rw [dropCount_eq_round]
  have h0 : (0:ℚ) * a = 0 := by ring
  rw [h0]
  unfold roundNearestEven
  norm_num

theorem countOnes_le {n : ℕ} (m : Fin n → Bool) : countOnes m ≤ n := by
  unfold countOnes
  calc (Finset.univ.filter (fun i => m i = true)).card
      ≤ (Finset.univ : Finset (Fin n)).card := Finset.card_filter_le _ _
    _ = n := by simp

theorem countOnes_dropMask {n : ℕ} (w : Fin n → ℤ) (mask : Fin n → Bool) (keep : ℕ) :
    countOnes (dropMask w mask keep) = min keep (countOnes mask) := by
  unfold dropMask
  rw [countOnes_topKIn, countOnes_eq_card_candSet]

theorem countOnes_genericTopK {n : ℕ} (s : Fin n → ℤ) (k : ℕ) :
    countOnes (genericTopK s k) = min k n := by
  unfold genericTopK
  rw [countOnes_topKIn]
  congr 1
  unfold candSet
  simp

theorem countOnes_compl {n : ℕ} (d : Fin n → Bool) :
    (Finset.univ.filter (fun j => d j = false)).card = n - countOnes d := by
  have key := Finset.filter_card_add_filter_neg_card_eq_card
    (s := (Finset.univ : Finset (Fin n))) (fun j => d j = true)
  have hEq : (Finset.univ.filter (fun j => ¬ d j = true)) =
      (Finset.univ.filter (fun j => d j = false)) := by
    apply Finset.filter_congr
    intro j _
    simp
  rw [hEq] at key
  have huniv : (Finset.univ : Finset (Fin n)).card = n := by simp
  unfold countOnes
  omega

theorem growMask_disjoint {n : ℕ} (g : Fin n → ℤ) (dropped : Fin n → Bool) (k : ℕ)
    (hk : k ≤ n - countOnes dropped) :
    ∀ i, dropped i = true → growMask g dropped k i = false := by
  intro i hdi
  cases hg : growMask g dropped k i
  · rfl
  · exfalso
    have hrank : rankIn (liftedGrowScores g dropped) (fun _ => true) i < k := by
      have hg2 := hg
      unfold growMask genericTopK topKIn at hg2
      simpa using hg2
    have hn : 0 < n := i.pos
    have hsub : Finset.univ.filter (fun j => dropped j = false) ⊆
        Finset.univ.filter
          (fun j => (fun _ => true) j = true ∧ prec (liftedGrowScores g dropped) j i) := by
      intro j hj
      have hdj : dropped j = false := (Finset.mem_filter.mp hj).2
      refine Finset.mem_filter.mpr ⟨Finset.mem_univ _, rfl, Or.inl ?_⟩
      have hmin : minAbsScore g ≤ |g j| := by
        unfold minAbsScore
        rw [dif_pos hn]
        exact Finset.inf'_le _ (Finset.mem_univ j)
      unfold liftedGrowScores
      rw [hdi, hdj]
      simp only [if_pos, if_neg, Bool.false_eq_true, not_false_eq_true, reduceIte]
      linarith
    have hcard := Finset.card_le_card hsub
    rw [countOnes_compl] at hcard
    unfold rankIn at hrank
    omega

theorem countOnes_or_of_disjoint {n : ℕ} (d e : Fin n → Bool)
    (h : ∀ i, d i = true → e i = false) :
    countOnes (fun i => d i || e i) = countOnes d + countOnes e := by
  unfold countOnes
  have hsplit : Finset.univ.filter (fun i => (d i || e i) = true) =
      Finset.univ.filter (fun i => d i = true) ∪ Finset.univ.filter (fun i => e i = true) := by
    ext i
    simp [Bool.or_eq_true]
  rw [hsplit, Finset.card_union_of_disjoint]
  apply Finset.disjoint_left.mpr
  intro i hi1 hi2
  have h1 : d i = true := (Finset.mem_filter.mp hi1).2
  have h2 : e i = true := (Finset.mem_filter.mp hi2).2
  rw [h i h1] at h2
  exact Bool.false_ne_true h2

theorem countOnes_riglMaskUpdate {n : ℕ} (w g : Fin n → ℤ) (mask : Fin n → Bool) (f : ℚ)
    (h0 : 0 ≤ f) (h1 : f ≤ 1) :
    countOnes (riglMaskUpdate w g mask f) = countOnes mask := by
  have hdca : dropCount f (countOnes mask) ≤ countOnes mask := dropCount_le h0 h1
  have han : countOnes mask ≤ n := countOnes_le mask
  have hdropc : countOnes (dropMask w mask (countOnes mask - dropCount f (countOnes mask))) =
      countOnes mask - dropCount f (countOnes mask) := by
    rw [countOnes_dropMask]
    exact min_eq_left (Nat.sub_le _ _)
  have hgrowc : countOnes (growMask g
      (dropMask w mask (countOnes mask - dropCount f (countOnes mask)))
      (dropCount f (countOnes mask))) = dropCount f (countOnes mask) := by
    unfold growMask
    rw [countOnes_genericTopK]
    exact min_eq_left (le_trans hdca han)
  have hdisj := growMask_disjoint g
    (dropMask w mask (countOnes mask - dropCount f (countOnes mask)))
    (dropCount f (countOnes mask)) (by rw [hdropc]; omega)
  simp only [riglMaskUpdate]
  rw [countOnes_or_of_disjoint _ _ hdisj, hdropc, hgrowc]
  omega

theorem riglMaskUpdate_zero_fraction {n : ℕ} (w g : Fin n → ℤ) (mask : Fin n → Bool) :
    ∀ i, riglMaskUpdate w g mask 0 i = mask i := by
  intro i
  simp only [riglMaskUpdate, dropCount_zero, Nat.sub_zero]
  have hdrop : dropMask w mask (countOnes mask) i = mask i :=
    topKIn_of_card_le _ _ _ (le_of_eq (countOnes_eq_card_candSet mask).symm) i
  have hgrow : growMask g (dropMask w mask (countOnes mask)) 0 i = false := by
    unfold growMask genericTopK
    exact topKIn_zero _ _ i
  rw [hgrow, hdrop, Bool.or_false]

theorem roundNearestEven_intCast (z : ℤ) : roundNearestEven (z : ℚ) = z := by
  unfold roundNearestEven
  rw [Int.floor_intCast]
  norm_num

theorem card_val_lt (n a : ℕ) :
    (Finset.univ.filter (fun j : Fin n => (j : ℕ) < a)).card = min a n := by
  rw [← Finset.card_range (min a n)]
  apply Finset.card_bij (fun (j : Fin n) _ => (j : ℕ))
  · intro j hj
    have hja : (j : ℕ) < a := (Finset.mem_filter.mp hj).2
    exact Finset.mem_range.mpr (lt_min hja j.isLt)
  · intro j₁ _ j₂ _ h
    exact Fin.val_injective h
  · intro m hm
    have hm' : m < min a n := Finset.mem_range.mp hm
    refine ⟨⟨m, lt_of_lt_of_le hm' (min_le_right a n)⟩, ?_, rfl⟩
    exact Finset.mem_filter.mpr ⟨Finset.mem_univ _, lt_of_lt_of_le hm' (min_le_left a n)⟩

theorem permuteOnes_count {n : ℕ} (σ : Equiv.Perm (Fin n)) (a : ℕ) :
    countOnes (permuteOnesMask σ a) = min a n := by
  unfold countOnes permuteOnesMask
  rw [← card_val_lt n a]
  apply Finset.card_equiv σ
  intro i
  simp

theorem createSlotsMask_count {n : ℕ} (σ : Equiv.Perm (Fin n)) (s : ℚ) :
    countOnes (createSlotsMask σ s) = min (initialActiveCount n s) n := by
  unfold createSlotsMask
  exact permuteOnes_count σ _

theorem lookup_dictSet_self (mp : List (ℕ × Option ℕ)) (k : ℕ) (val : Option ℕ) :
    List.lookup k (dictSet mp k val) = some val := by
  induction mp with
  | nil => simp [dictSet, List.lookup]
  | cons p rest ih =>
    obtain ⟨pk, pv⟩ := p
    unfold dictSet
    by_cases h : pk = k
    · rw [if_pos h]
      simp [List.lookup]
    · rw [if_neg h]
      have hne : (k == pk) = false := by
        simp [Ne.symm h]
      simp [List.lookup, hne, ih]

theorem lookup_dictSet_ne (mp : List (ℕ × Option ℕ)) (k k' : ℕ) (val : Option ℕ)
    (h : k' ≠ k) : List.lookup k' (dictSet mp k val) = List.lookup k' mp := by
  have hb : (k' == k) = false := beq_eq_false_iff_ne.mpr h
  induction mp with
  | nil =>
    simp [dictSet, List.lookup, hb]
  | cons p rest ih =>
    obtain ⟨pk, pv⟩ := p
    unfold dictSet
    by_cases hpk : pk = k
    · rw [if_pos hpk, hpk]
      simp [List.lookup, hb]
    · rw [if_neg hpk]
      by_cases hpk' : k' = pk
      · simp [List.lookup, hpk']
      · have h1 : (k' == pk) = false := by simp [hpk']
        simp [List.lookup, h1, ih]

theorem lookup_foldl_dictSet (ws : List ℕ) (val : Option ℕ) (mp : List (ℕ × Option ℕ))
    (k : ℕ) :
    List.lookup k (ws.foldl (fun m v => dictSet m v val) mp) =
      if k ∈ ws then some val else List.lookup k mp := by
  induction ws generalizing mp with
  | nil => simp
  | cons v rest ih =>
    rw [List.foldl_cons, ih]
    by_cases hk : k ∈ rest
    · simp [hk]
    · by_cases hv : k = v
      · subst hv
        simp [hk, lookup_dictSet_self]
      · simp [hk, hv, lookup_dictSet_ne _ _ _ _ hv]

theorem lookup_buildPrunerMap (m : KModel) (p k : ℕ) :
    List.lookup k (buildPrunerMap m p) =
      if ∃ l ∈ m.layers, k ∈ registeredWeights l then some (some p)
      else if k ∈ m.trainableWeights then some Option.none
      else Option.none := by
  unfold buildPrunerMap
  have hlayers : ∀ (ls : List LayerKind) (mp : List (ℕ × Option ℕ)),
      List.lookup k (ls.foldl (fun mp layer => (registeredWeights layer).foldl
        (fun mp v => dictSet mp v (some p)) mp) mp) =
      if ∃ l ∈ ls, k ∈ registeredWeights l then some (some p) else List.lookup k mp := by
    intro ls
    induction ls with
    | nil =>
      intro mp
      simp
    | cons l rest ih =>
      intro mp
      rw [List.foldl_cons, ih, lookup_foldl_dictSet]
      by_cases h1 : ∃ l' ∈ rest, k ∈ registeredWeights l'
      · simp [h1]
      · by_cases h2 : k ∈ registeredWeights l
        · simp [h1, h2]
        · simp [h1, h2]
  rw [hlayers, lookup_foldl_dictSet]
  simp [List.lookup]

theorem eagerTrajectory_foldl {n : ℕ} (sch : ConstantSchedule) (gi : GrowInit)
    (draw : Fin n → ℤ) (inputs : List ((Fin n → ℤ) × (Fin n → ℤ))) :
    ∀ (step : ℕ) (mask : Fin n → Bool) (pre : List (Fin n → Bool)),
      (inputs.foldl
        (fun acc wg =>
          let m := (engineStep sch gi draw acc.1 acc.2.1 wg.1 wg.2).1
          (acc.1 + 1, m, acc.2.2 ++ [m]))
        (step, mask, pre)).2.2 = pre ++ eagerTrajectory sch gi draw step mask inputs := by
  induction inputs with
  | nil =>
    intro step mask pre
    simp [eagerTrajectory]
  | cons hd rest ih =>
    intro step mask pre
    obtain ⟨w, g⟩ := hd
    rw [List.foldl_cons]
    rw [ih]
    simp [eagerTrajectory]

/-- C1: for every step of the mask-update engine (in particular every
update step) and every drop fraction in `[0, 1]`, the number of nonzero
entries of the mask after the update equals the number before: the
merged mask (intermediate drop mask union grow selection) has exactly
`A` ones where `A` is the pre-update active count. -/
theorem sparsity_preserved_on_update {n : ℕ} (sch : ConstantSchedule) (gi : GrowInit)
    (draw : Fin n → ℤ) (step : ℕ) (mask : Fin n → Bool) (w g : Fin n → ℤ)
    (h0 : 0 ≤ sch.fraction) (h1 : sch.fraction ≤ 1) :
    countOnes (engineStep sch gi draw step mask w g).1 = countOnes mask := by
  unfold engineStep
  split_ifs with h
  · exact countOnes_riglMaskUpdate w g mask _ h0 h1
  · rfl

/-- Witness for C1 at drop fraction 1 on the worked example. -/
theorem sparsity_preserved_on_update_witness :
    0 ≤ (ConstantSchedule.mk 1 0 4 1).fraction ∧
    (ConstantSchedule.mk 1 0 4 1).fraction ≤ 1 ∧
    countOnes (engineStep (ConstantSchedule.mk 1 0 4 1) GrowInit.zeros exampleDraw 0
      exampleMask exampleWeight exampleGrad).1 = countOnes exampleMask :=
  ⟨zero_le_one, le_refl 1,
    sparsity_preserved_on_update (ConstantSchedule.mk 1 0 4 1) GrowInit.zeros exampleDraw 0
      exampleMask exampleWeight exampleGrad zero_le_one (le_refl 1)⟩

/-- C3: on a step where `should_update` is false, the engine's
preprocess/postprocess pair returns the gradient unchanged and leaves
the mask (and the weights, the only other engine-written state)
bit-identical. -/
theorem no_op_on_non_update_step {n : ℕ} (sch : ConstantSchedule) (gi : GrowInit)
    (draw : Fin n → ℤ) (step : ℕ) (mask : Fin n → Bool) (w g : Fin n → ℤ)
    (h : should_update sch step = false) :
    engineStep sch gi draw step mask w g = (mask, w, g) := by
  unfold engineStep
  rw [h]
  simp

/-- Witness for C3 at step 0 of a schedule beginning at step 5. -/
theorem no_op_on_non_update_step_witness :
    should_update (ConstantSchedule.mk 1 5 10 1) 0 = false ∧
    engineStep (ConstantSchedule.mk 1 5 10 1) GrowInit.zeros exampleDraw 0
      exampleMask exampleWeight exampleGrad = (exampleMask, exampleWeight, exampleGrad) :=
  ⟨by decide,
    no_op_on_non_update_step (ConstantSchedule.mk 1 5 10 1) GrowInit.zeros exampleDraw 0
      exampleMask exampleWeight exampleGrad (by decide)⟩

/-- C4: when the drop fraction is 0, the computed drop count is 0 and
the mask after the engine step is bit-identical to the mask before, for
every begin step, end step and update frequency (on update steps and
non-update steps alike). -/
theorem zero_drop_fraction_no_op {n : ℕ} (b e q step : ℕ) (gi : GrowInit)
    (draw : Fin n → ℤ) (mask : Fin n → Bool) (w g : Fin n → ℤ) :
    dropCount (dropFraction (ConstantSchedule.mk 0 b e q) step) (countOnes mask) = 0 ∧
    ∀ i, (engineStep (ConstantSchedule.mk 0 b e q) gi draw step mask w g).1 i = mask i := by
  constructor
  · exact dropCount_zero _
  · intro i
    unfold engineStep
    split_ifs with h
    · exact riglMaskUpdate_zero_fraction w g mask i
    · rfl

/-- C5: within a single update, the intermediate (post-drop) mask and
the grow selection are disjoint: the sentinel lift puts every
still-active position strictly below the minimum grow score, so the
grow top-k never selects an active position, and the elementwise
product of the two selection masks sums to zero. -/
theorem drop_grow_disjoint {n : ℕ} (w g : Fin n → ℤ) (mask : Fin n → Bool) (f : ℚ)
    (h0 : 0 ≤ f) (h1 : f ≤ 1) :
    (∀ i, ¬(dropMask w mask (countOnes mask - dropCount f (countOnes mask)) i = true ∧
        growMask g (dropMask w mask (countOnes mask - dropCount f (countOnes mask)))
          (dropCount f (countOnes mask)) i = true)) ∧
    (∑ i : Fin n,
        (dropMask w mask (countOnes mask - dropCount f (countOnes mask)) i).toNat *
        (growMask g (dropMask w mask (countOnes mask - dropCount f (countOnes mask)))
          (dropCount f (countOnes mask)) i).toNat) = 0 := by
  have hdca : dropCount f (countOnes mask) ≤ countOnes mask := dropCount_le h0 h1
  have han : countOnes mask ≤ n := countOnes_le mask
  have hdropc : countOnes (dropMask w mask (countOnes mask - dropCount f (countOnes mask))) =
      countOnes mask - dropCount f (countOnes mask) := by
    rw [countOnes_dropMask]
    exact min_eq_left (Nat.sub_le _ _)
  have hdisj := growMask_disjoint g
    (dropMask w mask (countOnes mask - dropCount f (countOnes mask)))
    (dropCount f (countOnes mask)) (by rw [hdropc]; omega)
  constructor
  · intro i ⟨hd, hg⟩
    rw [hdisj i hd] at hg
    exact Bool.false_ne_true hg
  · apply Finset.sum_eq_zero
    intro i _
    cases hd : dropMask w mask (countOnes mask - dropCount f (countOnes mask)) i
    · simp
    · rw [hdisj i hd]
      simp

/-- Witness for C5 at drop fraction 1 on the worked example. -/
theorem drop_grow_disjoint_witness :
    0 ≤ (1 : ℚ) ∧ (1 : ℚ) ≤ 1 ∧
    ((∀ i, ¬(dropMask exampleWeight exampleMask
          (countOnes exampleMask - dropCount 1 (countOnes exampleMask)) i = true ∧
        growMask exampleGrad (dropMask exampleWeight exampleMask
            (countOnes exampleMask - dropCount 1 (countOnes exampleMask)))
          (dropCount 1 (countOnes exampleMask)) i = true)) ∧
    (∑ i : Fin 10,
        (dropMask exampleWeight exampleMask
          (countOnes exampleMask - dropCount 1 (countOnes exampleMask)) i).toNat *
        (growMask exampleGrad (dropMask exampleWeight exampleMask
            (countOnes exampleMask - dropCount 1 (countOnes exampleMask)))
          (dropCount 1 (countOnes exampleMask)) i).toNat) = 0) :=
  ⟨zero_le_one, le_refl 1,
    drop_grow_disjoint exampleWeight exampleGrad exampleMask 1 zero_le_one (le_refl 1)⟩

/-- C6: for the same configuration (seeded draw) and the same input
sequence of (weight, gradient) pairs starting from the same mask and
step, step-by-step eager execution and batched single-unit execution
produce identical mask trajectories. -/
theorem eager_batched_trajectory_eq {n : ℕ} (sch : ConstantSchedule) (gi : GrowInit)
    (draw : Fin n → ℤ) (step : ℕ) (mask : Fin n → Bool)
    (inputs : List ((Fin n → ℤ) × (Fin n → ℤ))) :
    eagerTrajectory sch gi draw step mask inputs =
      batchedTrajectory sch gi draw step mask inputs := by
  unfold batchedTrajectory
  rw [eagerTrajectory_foldl]
  simp

/-- C2: immediately after `create_slots` allocates the mask, for every
target sparsity in `{0.1, 0.3, 0.5, 0.7, 0.9}` on a size-10 weight
tensor, the mask has exactly `round((1 - target_sparsity) * size)`
active elements and `count_nonzero(mask) / size(mask) = 1 - sparsity`,
whatever seeded permutation the distribution drew. -/
theorem initial_mask_density (σ : Equiv.Perm (Fin 10)) (s : ℚ)
    (hs : s = 1/10 ∨ s = 3/10 ∨ s = 1/2 ∨ s = 7/10 ∨ s = 9/10) :
    countOnes (createSlotsMask σ s) = initialActiveCount 10 s ∧
    (countOnes (createSlotsMask σ s) : ℚ) / 10 = 1 - s := by
  have hcount := createSlotsMask_count σ s
  rcases hs with rfl | rfl | rfl | rfl | rfl
  · have hc : initialActiveCount 10 (1/10) = 9 := by
      unfold initialActiveCount
      rw [show ((1:ℚ) - 1/10) * ((10:ℕ):ℚ) = ((9:ℤ):ℚ) by push_cast; norm_num]
      rw [roundNearestEven_intCast]
      rfl
    rw [hc] at hcount
    rw [hcount, hc, show min 9 10 = 9 from by decide]
    norm_num
  · have hc : initialActiveCount 10 (3/10) = 7 := by
      unfold initialActiveCount
      rw [show ((1:ℚ) - 3/10) * ((10:ℕ):ℚ) = ((7:ℤ):ℚ) by push_cast; norm_num]
      rw [roundNearestEven_intCast]
      rfl
    rw [hc] at hcount
    rw [hcount, hc, show min 7 10 = 7 from by decide]
    norm_num
  · have hc : initialActiveCount 10 (1/2) = 5 := by
      unfold initialActiveCount
      rw [show ((1:ℚ) - 1/2) * ((10:ℕ):ℚ) = ((5:ℤ):ℚ) by push_cast; norm_num]
      rw [roundNearestEven_intCast]
      rfl
    rw [hc] at hcount
    rw [hcount, hc, show min 5 10 = 5 from by decide]
    norm_num
  · have hc : initialActiveCount 10 (7/10) = 3 := by
      unfold initialActiveCount
      rw [show ((1:ℚ) - 7/10) * ((10:ℕ):ℚ) = ((3:ℤ):ℚ) by push_cast; norm_num]
      rw [roundNearestEven_intCast]
      rfl
    rw [hc] at hcount
    rw [hcount, hc, show min 3 10 = 3 from by decide]
    norm_num
  · have hc : initialActiveCount 10 (9/10) = 1 := by
      unfold initialActiveCount
      rw [show ((1:ℚ) - 9/10) * ((10:ℕ):ℚ) = ((1:ℤ):ℚ) by push_cast; norm_num]
      rw [roundNearestEven_intCast]
      rfl
    rw [hc] at hcount
    rw [hcount, hc, show min 1 10 = 1 from by decide]
    norm_num

/-- Witness for C2 at sparsity 1/2 with the identity permutation. -/
theorem initial_mask_density_witness :
    ((1:ℚ)/2 = 1/10 ∨ (1:ℚ)/2 = 3/10 ∨ (1:ℚ)/2 = 1/2 ∨ (1:ℚ)/2 = 7/10 ∨ (1:ℚ)/2 = 9/10) ∧
    (countOnes (createSlotsMask (Equiv.refl (Fin 10)) (1/2)) = initialActiveCount 10 (1/2) ∧
     (countOnes (createSlotsMask (Equiv.refl (Fin 10)) (1/2)) : ℚ) / 10 = 1 - 1/2) :=
  ⟨Or.inr (Or.inr (Or.inl rfl)),
    initial_mask_density (Equiv.refl (Fin 10)) (1/2) (Or.inr (Or.inr (Or.inl rfl)))⟩

/-- C7: in the worked scenario (weight `linspace(1,100,10)`, mask
`[1,1,0,1,0,0,1,1,0,0]`, gradient `[67,45,89,56,100,34,1,23,12,78]`,
schedule updating at steps 1 and 3), drop fractions 2/5 and 1/2 give
the same drop count `round(f * 5) = 2` and the same updated mask; the
first update produces exactly `[0,0,1,1,1,0,1,1,0,0]` and the active
count stays 5. -/
theorem worked_example_update :
    dropCount (1/2) 5 = 2 ∧ dropCount (2/5) 5 = 2 ∧
    (∀ i, riglMaskUpdate exampleWeight exampleGrad exampleMask (2/5) i =
          riglMaskUpdate exampleWeight exampleGrad exampleMask (1/2) i) ∧
    (∀ i, riglMaskUpdate exampleWeight exampleGrad exampleMask (1/2) i = exampleExpected i) ∧
    countOnes (riglMaskUpdate exampleWeight exampleGrad exampleMask (1/2)) = 5 ∧
    countOnes exampleMask = 5 ∧
    should_update exampleSchedule 1 = true ∧ should_update exampleSchedule 3 = true ∧
    (∀ i, (engineStep exampleSchedule GrowInit.zeros exampleDraw 1
        exampleMask exampleWeight exampleGrad).1 i = exampleExpected i) := by
  have h2 : (1:ℚ)/2 = mkRat 1 2 := by
    rw [Rat.mkRat_eq_div]
    norm_num
  have h5 : (2:ℚ)/5 = mkRat 2 5 := by
    rw [Rat.mkRat_eq_div]
    norm_num
  simp only [h2, h5]
  decide

/-- C8: with growth-init policy `zeros`, every weight at a position that
flipped from inactive to active reads exactly 0 immediately after the
update commits; with policy `random_normal` a newly-active position
carries the random draw, hence is nonzero whenever the draw is nonzero
(which holds with probability one for a normal draw). -/
theorem grow_reinit_values {n : ℕ} (sch : ConstantSchedule) (draw : Fin n → ℤ)
    (step : ℕ) (mask : Fin n → Bool) (w g : Fin n → ℤ) (i : Fin n)
    (hold : mask i = false) :
    ((engineStep sch GrowInit.zeros draw step mask w g).1 i = true →
      (engineStep sch GrowInit.zeros draw step mask w g).2.1 i = 0) ∧
    ((engineStep sch GrowInit.randomNormal draw step mask w g).1 i = true →
      draw i ≠ 0 →
      (engineStep sch GrowInit.randomNormal draw step mask w g).2.1 i ≠ 0) := by
  unfold engineStep
  split_ifs with h
  · constructor
    · intro hnew
      dsimp only at hnew ⊢
      unfold reinitWeights
      rw [if_pos ⟨hold, hnew⟩]
      rfl
    · intro hnew hdraw
      dsimp only at hnew ⊢
      unfold reinitWeights
      rw [if_pos ⟨hold, hnew⟩]
      exact hdraw
  · constructor
    · intro hnew
      dsimp only at hnew
      rw [hold] at hnew
      exact absurd hnew (by simp)
    · intro hnew
      dsimp only at hnew
      rw [hold] at hnew
      exact absurd hnew (by simp)

/-- Witness for C8: position 4 of the worked example flips from
inactive to active at step 1; under `zeros` its weight reads 0 and
under `random_normal` it reads the (nonzero) draw. -/
theorem grow_reinit_values_witness :
    (engineStep exampleSchedule GrowInit.zeros exampleDraw 1
      exampleMask exampleWeight exampleGrad).2.1 4 = 0 ∧
    (engineStep exampleSchedule GrowInit.randomNormal exampleDraw 1
      exampleMask exampleWeight exampleGrad).2.1 4 ≠ 0 :=
  ⟨(grow_reinit_values exampleSchedule exampleDraw 1 exampleMask exampleWeight exampleGrad
      4 (by decide)).1 (by decide),
   (grow_reinit_values exampleSchedule exampleDraw 1 exampleMask exampleWeight exampleGrad
      4 (by decide)).2 (by decide) (by decide)⟩

/-- C9: constructing a `RiGLPruner` with an unrecognized growth-init
policy (`'ones'`, `'zero'`, `None`, or the non-string `0`) yields a
configuration error eagerly at construction, before any slot exists;
the documented policies are accepted without error. -/
theorem grow_init_validation :
    mkRiGLPruner (ConstantSchedule.mk 1 0 4 4) 1 0 1 (GrowInitInput.str "ones") =
      Except.error "unsupported grow_init method" ∧
    mkRiGLPruner (ConstantSchedule.mk 1 0 4 4) 1 0 1 (GrowInitInput.str "zero") =
      Except.error "unsupported grow_init method" ∧
    mkRiGLPruner (ConstantSchedule.mk 1 0 4 4) 1 0 1 GrowInitInput.noneVal =
      Except.error "unsupported grow_init method" ∧
    mkRiGLPruner (ConstantSchedule.mk 1 0 4 4) 1 0 1 (GrowInitInput.int 0) =
      Except.error "unsupported grow_init method" ∧
    mkRiGLPruner (ConstantSchedule.mk 1 0 4 4) 1 0 1 (GrowInitInput.str "zeros") =
      Except.ok ⟨ConstantSchedule.mk 1 0 4 4, 1, 0, 1, GrowInit.zeros⟩ ∧
    mkRiGLPruner (ConstantSchedule.mk 1 0 4 4) 1 0 1 (GrowInitInput.str "random_normal") =
      Except.ok ⟨ConstantSchedule.mk 1 0 4 4, 1, 0, 1, GrowInit.randomNormal⟩ ∧
    mkRiGLPruner (ConstantSchedule.mk 1 0 4 4) 1 0 1 (GrowInitInput.str "random_uniform") =
      Except.ok ⟨ConstantSchedule.mk 1 0 4 4, 1, 0, 1, GrowInit.randomUniform⟩ :=
  ⟨rfl, rfl, rfl, rfl, rfl, rfl, rfl⟩

/-- C10 counterexample: a variable registered by a prunable layer but
absent from the configured model's trainable weights is returned with
the shared pruner by `get_pruner`, not rejected with a `ValueError` as
the claim states: `_process_layer`'s dictionary assignment adds the
variable to the pruner map. -/
theorem getPruner_claim_counterexample :
    7 ∉ (KModel.mk [] [LayerKind.prunableLayer [7]]).trainableWeights ∧
    getPruner 1 ⟨some (KModel.mk [] [LayerKind.prunableLayer [7]]), Option.none⟩ 7 =
      Except.ok (some 1) :=
  ⟨by simp, rfl⟩

/-- C10 (amended): `get_pruner` raises `ValueError` when no model is
configured at the time the map is first built; once built, it raises
`ValueError` exactly for variables with no entry in the map — those
neither among the trainable weights nor registered by any prunable
layer; for a trainable variable no prunable layer registered it returns
`None` rather than raising, and for a variable some prunable layer
registered it returns the shared pruner. -/
theorem getPruner_spec (p : ℕ) (m : KModel) (v : ℕ) :
    (∀ mp, mapIsFalsy mp = true →
      getPruner p ⟨Option.none, mp⟩ v =
        Except.error "You may be using a PruningOptimizer without a configured model") ∧
    (v ∉ m.trainableWeights → (∀ l ∈ m.layers, v ∉ registeredWeights l) →
      getPruner p ⟨some m, Option.none⟩ v =
        Except.error "variable did not appear in the configured model trainable weights") ∧
    (v ∈ m.trainableWeights → (∀ l ∈ m.layers, v ∉ registeredWeights l) →
      getPruner p ⟨some m, Option.none⟩ v = Except.ok Option.none) ∧
    ((∃ l ∈ m.layers, v ∈ registeredWeights l) →
      getPruner p ⟨some m, Option.none⟩ v = Except.ok (some p)) := by
  refine ⟨?_, ?_, ?_, ?_⟩
  · intro mp hmp
    unfold getPruner
    dsimp only
    rw [if_pos hmp]
  · intro h1 h2
    have hA : ¬ ∃ l ∈ m.layers, v ∈ registeredWeights l := by
      rintro ⟨l, hl, hv⟩
      exact h2 l hl hv
    have hm : mapIsFalsy (Option.none : Option (List (ℕ × Option ℕ))) = true := rfl
    unfold getPruner
    dsimp only
    rw [if_pos hm]
    dsimp only
    rw [lookup_buildPrunerMap, if_neg hA, if_neg h1]
  · intro h1 h2
    have hA : ¬ ∃ l ∈ m.layers, v ∈ registeredWeights l := by
      rintro ⟨l, hl, hv⟩
      exact h2 l hl hv
    have hm : mapIsFalsy (Option.none : Option (List (ℕ × Option ℕ))) = true := rfl
    unfold getPruner
    dsimp only
    rw [if_pos hm]
    dsimp only
    rw [lookup_buildPrunerMap, if_neg hA, if_pos h1]
  · intro hE
    have hm : mapIsFalsy (Option.none : Option (List (ℕ × Option ℕ))) = true := rfl
    unfold getPruner
    dsimp only
    rw [if_pos hm]
    dsimp only
    rw [lookup_buildPrunerMap, if_pos hE]

/-- Witness for the amended C10, covering the unconfigured-model error,
the missing-variable error, the trainable-but-unregistered `None`
result, and the registered-variable result. -/
theorem getPruner_spec_witness :
    getPruner 1 ⟨Option.none, Option.none⟩ 5 =
      Except.error "You may be using a PruningOptimizer without a configured model" ∧
    getPruner 1 ⟨some (KModel.mk [3] [LayerKind.notPrunable]), Option.none⟩ 5 =
      Except.error "variable did not appear in the configured model trainable weights" ∧
    getPruner 1 ⟨some (KModel.mk [3] [LayerKind.notPrunable]), Option.none⟩ 3 =
      Except.ok Option.none ∧
    getPruner 1 ⟨some (KModel.mk [] [LayerKind.prunableLayer [9]]), Option.none⟩ 9 =
      Except.ok (some 1) :=
  ⟨(getPruner_spec 1 (KModel.mk [3] [LayerKind.notPrunable]) 5).1 Option.none rfl,
   (getPruner_spec 1 (KModel.mk [3] [LayerKind.notPrunable]) 5).2.1 (by decide) (by decide),
   (getPruner_spec 1 (KModel.mk [3] [LayerKind.notPrunable]) 3).2.2.1 (by decide) (by decide),
   (getPruner_spec 1 (KModel.mk [] [LayerKind.prunableLayer [9]]) 9).2.2.2
     ⟨LayerKind.prunableLayer [9], by decide⟩⟩

end RiglSpec
